import Mathlib

/-!
Shallow embedding of the BMP decoder found in `src/bmp.rs` of the `pbm`
repository.  The input byte stream is modelled as a `List Nat` of byte
values (well-formedness, where needed, is the hypothesis that each
element is below 256).  Each `read_*` function of the Rust code becomes a
pure function from the remaining stream to `Except LoadError (result ×
remaining stream)`.  Machine integers are modelled as `Nat` with explicit
`% 256` where the code truncates (`as u8`); the little-endian word
assembly macros `word!` and `dword!` become the functions `word` and
`dword`.
-/

/-- A BMP load error, mirroring `enum LoadError` (the `Io` case wraps a
lower-level stream failure that a pure in-memory stream never produces). -/
inductive LoadError where
  | Io : LoadError
  | UnexpectedEof : LoadError
  | BadMagic : LoadError
  | UnsupportedDib : LoadError
  | UnsupportedBpp : LoadError
deriving DecidableEq, Repr

/-- A BMP file header, mirroring `struct Header`. -/
structure Header where
  size : Nat
  reserved : Nat
  offset : Nat
deriving DecidableEq, Repr

/-- A BMP DIB info block, mirroring `struct Dib`. -/
structure Dib where
  width : Nat
  height : Nat
  planes : Nat
  bpp : Nat
  comp : Nat
  size : Nat
  ppm_x : Nat
  ppm_y : Nat
  colors : Nat
  imp_colors : Nat
deriving DecidableEq, Repr

/-- A color in RGBX format, mirroring the tuple struct `Rgbx(u8, u8, u8, u8)`;
the four unnamed components are called `c0 .. c3` here. -/
structure Rgbx where
  c0 : Nat
  c1 : Nat
  c2 : Nat
  c3 : Nat
deriving DecidableEq, Repr

/-- The color table of a BMP, mirroring `type ColorTable = Vec<Rgbx>`. -/
def ColorTable := List Rgbx

/-- BMP pixel data, mirroring `type Pixels = Vec<usize>`. -/
def Pixels := List Nat

/-- A BMP bitmap, mirroring `struct Bitmap`. -/
structure Bitmap where
  header : Header
  dib : Dib
  colors : List Rgbx
  pixels : List Nat
deriving DecidableEq, Repr

/-- The `word!` macro: assemble a little-endian `u16` from two bytes of a
buffer (`Int::from_le` is the identity on the assembled value). -/
def word (b : List Nat) (i : Nat) : Nat :=
  b.getD i 0 + b.getD (i + 1) 0 * 256

/-- The `dword!` macro: assemble a little-endian `u32` from four bytes of a
buffer (`Int::from_le` is the identity on the assembled value). -/
def dword (b : List Nat) (i : Nat) : Nat :=
  b.getD i 0 + b.getD (i + 1) 0 * 256 + b.getD (i + 2) 0 * 65536 +
    b.getD (i + 3) 0 * 16777216

/-- Mirror of `u32::to_be` on the (little-endian) target: the byte-swap of a 32-bit
word. -/
def u32_to_be (n : Nat) : Nat :=
  n % 256 * 16777216 + n / 256 % 256 * 65536 + n / 65536 % 256 * 256 +
    n / 16777216 % 256

/-- Mirror of `Rgbx::from_u32`: byte-swap the word, then take the four bytes from the
most significant downwards (each `as u8` cast is a `% 256`). -/
def Rgbx.from_u32 (n : Nat) : Rgbx :=
  ⟨u32_to_be n / 16777216 % 256, u32_to_be n / 65536 % 256,
   u32_to_be n / 256 % 256, u32_to_be n % 256⟩

namespace Bitmap

/-- Mirror of `Bitmap::read_section`: demand exactly `ebytes` bytes from the stream;
deliver them and the advanced stream, or fail with `UnexpectedEof` when the
stream holds fewer. -/
def read_section (input : List Nat) (ebytes : Nat) :
    Except LoadError (List Nat × List Nat) :=
  if ebytes ≤ input.length then .ok (input.take ebytes, input.drop ebytes)
  else .error .UnexpectedEof

/-- Mirror of `Bitmap::read_header`: read 14 bytes, check the `BM` magic, decode the
three little-endian dwords.  The `try!` of the Rust code is `Except.bind`. -/
def read_header (input : List Nat) : Except LoadError (Header × List Nat) :=
  (read_section input 14).bind fun br =>
    if br.1.getD 0 0 ≠ 0x42 ∨ br.1.getD 1 0 ≠ 0x4d then .error .BadMagic
    else .ok (⟨dword br.1 2, dword br.1 6, dword br.1 10⟩, br.2)

/-- Mirror of `Bitmap::read_dib`: read 40 bytes, require the declared DIB length to be
40, decode the fields at their fixed offsets. -/
def read_dib (input : List Nat) : Except LoadError (Dib × List Nat) :=
  (read_section input 40).bind fun br =>
    if dword br.1 0 ≠ 40 then .error .UnsupportedDib
    else .ok (⟨dword br.1 4, dword br.1 8, word br.1 12, word br.1 14,
               dword br.1 16, dword br.1 20, dword br.1 24, dword br.1 28,
               dword br.1 32, dword br.1 36⟩, br.2)

/-- Mirror of `Bitmap::read_color_table`: read `4 * ncolors` bytes and decode each
4-byte group, in stream order, through `Rgbx::from_u32`. -/
def read_color_table (input : List Nat) (ncolors : Nat) :
    Except LoadError (List Rgbx × List Nat) :=
  (read_section input (4 * ncolors)).bind fun br =>
    .ok ((List.range ncolors).map (fun i => Rgbx.from_u32 (dword br.1 (4 * i))),
         br.2)

/-- The local `rbytes` of `Bitmap::read_pixels_4bpp`: the padded row stride in
bytes for a 4-bpp row of `cols` pixels. -/
def rbytes (cols : Nat) : Nat := (4 * cols + 31) / 32 * 4

/-- Mirror of `Bitmap::read_pixels_4bpp`: read `rows * rbytes` bytes, then emit, row by
row and column by column, the high nibble (`b >> 4`, i.e. `b / 16`) for even
columns and the low nibble (`b & 0x0f`, i.e. `b % 16`) for odd columns of the
byte at `r * rbytes + c / 2`. -/
def read_pixels_4bpp (input : List Nat) (cols rows : Nat) :
    Except LoadError (List Nat × List Nat) :=
  (read_section input (rows * rbytes cols)).bind fun br =>
    .ok ((List.range rows).flatMap (fun r => (List.range cols).map (fun c =>
           if c % 2 = 0 then br.1.getD (r * rbytes cols + c / 2) 0 / 16
           else br.1.getD (r * rbytes cols + c / 2) 0 % 16)), br.2)

/-- Mirror of `Bitmap::read_pixels`: closed dispatch on the bit depth; only 4 bpp is
implemented, everything else is `UnsupportedBpp`. -/
def read_pixels (input : List Nat) (cols rows : Nat) (bpp : Nat) :
    Except LoadError (List Nat × List Nat) :=
  if bpp = 4 then read_pixels_4bpp input cols rows
  else .error .UnsupportedBpp

/-- Mirror of `Bitmap::read`: the whole pipeline, header then DIB then color table then
pixels, over one position-advancing stream. -/
def read (input : List Nat) : Except LoadError Bitmap :=
  (read_header input).bind fun hr =>
    (read_dib hr.2).bind fun dr =>
      (read_color_table dr.2 dr.1.colors).bind fun cr =>
        (read_pixels cr.2 dr.1.width dr.1.height dr.1.bpp).bind fun pr =>
          .ok ⟨hr.1, dr.1, cr.1, pr.1⟩

end Bitmap

/-! ### The successful decode, characterized at absolute stream offsets

The following definitions name, for a stream `bs`, the values the decoder
extracts at the absolute offsets of the wire layout (header at 0, DIB at 14,
palette at 54, pixel data at `54 + 4 * palette_colors`).  The lemmas below
prove them equal to what `Bitmap.read` produces. -/

/-- The file header the decoder extracts from bytes 2–13. -/
def parsedHeader (bs : List Nat) : Header :=
  ⟨dword bs 2, dword bs 6, dword bs 10⟩

/-- The DIB the decoder extracts from bytes 14–53. -/
def parsedDib (bs : List Nat) : Dib :=
  ⟨dword bs 18, dword bs 22, word bs 26, word bs 28, dword bs 30, dword bs 34,
   dword bs 38, dword bs 42, dword bs 46, dword bs 50⟩

/-- The palette the decoder extracts from the `4 * palette_colors` bytes at
offset 54. -/
def parsedPalette (bs : List Nat) : List Rgbx :=
  (List.range (dword bs 46)).map (fun i => Rgbx.from_u32 (dword bs (54 + 4 * i)))

/-- The absolute stream offset at which the pixel data starts. -/
def pixelByteBase (bs : List Nat) : Nat := 54 + 4 * dword bs 46

/-- The pixel grid the decoder extracts from the pixel data bytes. -/
def parsedPixels (bs : List Nat) : List Nat :=
  (List.range (dword bs 22)).flatMap (fun r =>
    (List.range (dword bs 18)).map (fun c =>
      if c % 2 = 0
      then bs.getD (pixelByteBase bs + (r * Bitmap.rbytes (dword bs 18) + c / 2)) 0 / 16
      else bs.getD (pixelByteBase bs + (r * Bitmap.rbytes (dword bs 18) + c / 2)) 0 % 16))

/-- The total number of bytes a successful decode consumes. -/
def totalBytes (bs : List Nat) : Nat :=
  pixelByteBase bs + dword bs 22 * Bitmap.rbytes (dword bs 18)

/-! ### Concrete fixtures (the byte buffers of the original tests) -/

/-- The 82-byte well-formed input of the original `should_read` test. -/
def fixBytes : List Nat := [
  0x42, 0x4d,
  0x52, 0x00, 0x00, 0x00,
  0x00, 0x00, 0x00, 0x00,
  0x46, 0x00, 0x00, 0x00,
  0x28, 0x00, 0x00, 0x00,
  0x03, 0x00, 0x00, 0x00,
  0x03, 0x00, 0x00, 0x00,
  0x01, 0x00,
  0x04, 0x00,
  0x00, 0x00, 0x00, 0x00,
  0x0c, 0x00, 0x00, 0x00,
  0x13, 0x0b, 0x00, 0x00,
  0x13, 0x0b, 0x00, 0x00,
  0x04, 0x00, 0x00, 0x00,
  0x04, 0x00, 0x00, 0x00,
  0x00, 0x00, 0x00, 0x00,
  0xff, 0x00, 0x00, 0x00,
  0x00, 0xff, 0x00, 0x00,
  0x00, 0x00, 0xff, 0x00,
  0x13, 0x20, 0x00, 0x00,
  0x30, 0x30, 0x00, 0x00,
  0x23, 0x10, 0x00, 0x00]

/-- The bitmap `fixBytes` decodes to. -/
def fixBitmap : Bitmap :=
  ⟨⟨0x52, 0, 0x46⟩,
   ⟨3, 3, 1, 4, 0, 12, 2835, 2835, 4, 4⟩,
   [⟨0, 0, 0, 0⟩, ⟨255, 0, 0, 0⟩, ⟨0, 255, 0, 0⟩, ⟨0, 0, 255, 0⟩],
   [1, 3, 2, 3, 0, 3, 2, 3, 1]⟩

/-- The `should_fail_read_unsupported_pixel_format` fixture: like `fixBytes`
but declaring 1 bit per pixel. -/
def bppFixBytes : List Nat := [
  0x42, 0x4d,
  0x52, 0x00, 0x00, 0x00,
  0x00, 0x00, 0x00, 0x00,
  0x46, 0x00, 0x00, 0x00,
  0x28, 0x00, 0x00, 0x00,
  0x03, 0x00, 0x00, 0x00,
  0x03, 0x00, 0x00, 0x00,
  0x01, 0x00,
  0x01, 0x00,
  0x00, 0x00, 0x00, 0x00,
  0x0c, 0x00, 0x00, 0x00,
  0x13, 0x0b, 0x00, 0x00,
  0x13, 0x0b, 0x00, 0x00,
  0x04, 0x00, 0x00, 0x00,
  0x04, 0x00, 0x00, 0x00,
  0x00, 0x00, 0x00, 0x00,
  0xff, 0x00, 0x00, 0x00,
  0x00, 0xff, 0x00, 0x00,
  0x00, 0x00, 0xff, 0x00,
  0x13, 0x20, 0x00, 0x00,
  0x30, 0x30, 0x00, 0x00,
  0x23, 0x10, 0x00, 0x00]

/-- The `should_fail_read_unsupported_dib` fixture: a 54-byte stream whose
DIB declares size 0xddccbbaa. -/
def dibFixBytes : List Nat := [
  0x42, 0x4d,
  0x52, 0x00, 0x00, 0x00,
  0x00, 0x00, 0x00, 0x00,
  0x46, 0x00, 0x00, 0x00,
  0xaa, 0xbb, 0xcc, 0xdd,
  0x03, 0x00, 0x00, 0x00,
  0x03, 0x00, 0x00, 0x00,
  0x01, 0x00,
  0x04, 0x00,
  0x00, 0x00, 0x00, 0x00,
  0x0c, 0x00, 0x00, 0x00,
  0x13, 0x0b, 0x00, 0x00,
  0x13, 0x0b, 0x00, 0x00,
  0x04, 0x00, 0x00, 0x00,
  0x04, 0x00, 0x00, 0x00]

/-! ### Generic helper lemmas -/

theorem bind_ok_eq {ε α β : Type} (x : α) (f : α → Except ε β) :
    (Except.ok x : Except ε α).bind f = f x := rfl

theorem bind_error_eq {ε α β : Type} (e : ε) (f : α → Except ε β) :
    (Except.error e : Except ε α).bind f = .error e := rfl

theorem getD_take_eq {α : Type} (l : List α) (n i : Nat) (d : α) (h : i < n) :
    (l.take n).getD i d = l.getD i d := by
  simp [List.getD_eq_getElem?_getD, List.getElem?_take, h]

theorem getD_drop_eq {α : Type} (l : List α) (n i : Nat) (d : α) :
    (l.drop n).getD i d = l.getD (n + i) d := by
  simp [List.getD_eq_getElem?_getD, List.getElem?_drop]

theorem word_take_eq (l : List Nat) (k i : Nat) (h : i + 1 < k) :
    word (l.take k) i = word l i := by
  unfold word
  rw [getD_take_eq _ _ _ _ (by omega), getD_take_eq _ _ _ _ (by omega)]

theorem dword_take_eq (l : List Nat) (k i : Nat) (h : i + 3 < k) :
    dword (l.take k) i = dword l i := by
  unfold dword
  rw [getD_take_eq _ _ _ _ (by omega), getD_take_eq _ _ _ _ (by omega),
    getD_take_eq _ _ _ _ (by omega), getD_take_eq _ _ _ _ (by omega)]

theorem word_drop_eq (l : List Nat) (k i : Nat) :
    word (l.drop k) i = word l (k + i) := by
  simp [word, getD_drop_eq, Nat.add_assoc]

theorem dword_drop_eq (l : List Nat) (k i : Nat) :
    dword (l.drop k) i = dword l (k + i) := by
  simp [dword, getD_drop_eq, Nat.add_assoc]

/-! ### Stage characterization lemmas -/

namespace Bitmap

theorem read_section_ok (l : List Nat) (n : Nat) (h : n ≤ l.length) :
    read_section l n = .ok (l.take n, l.drop n) := by
  unfold read_section; rw [if_pos h]

theorem read_section_eof (l : List Nat) (n : Nat) (h : l.length < n) :
    read_section l n = .error .UnexpectedEof := by
  unfold read_section; rw [if_neg (by omega)]

theorem read_header_eof (l : List Nat) (h : l.length < 14) :
    read_header l = .error .UnexpectedEof := by
  rw [read_header, read_section_eof l 14 h, bind_error_eq]

theorem read_header_badmagic (l : List Nat) (h : 14 ≤ l.length)
    (hm : l.getD 0 0 ≠ 0x42 ∨ l.getD 1 0 ≠ 0x4d) :
    read_header l = .error .BadMagic := by
  rw [read_header, read_section_ok l 14 h, bind_ok_eq]
  have h0 : (l.take 14).getD 0 0 = l.getD 0 0 := getD_take_eq _ _ _ _ (by omega)
  have h1 : (l.take 14).getD 1 0 = l.getD 1 0 := getD_take_eq _ _ _ _ (by omega)
  simp only [h0, h1]
  rw [if_pos hm]

theorem read_header_ok (l : List Nat) (h : 14 ≤ l.length)
    (h0 : l.getD 0 0 = 0x42) (h1 : l.getD 1 0 = 0x4d) :
    read_header l = .ok (⟨dword l 2, dword l 6, dword l 10⟩, l.drop 14) := by
  rw [read_header, read_section_ok l 14 h, bind_ok_eq]
  have e0 : (l.take 14).getD 0 0 = l.getD 0 0 := getD_take_eq _ _ _ _ (by omega)
  have e1 : (l.take 14).getD 1 0 = l.getD 1 0 := getD_take_eq _ _ _ _ (by omega)
  simp only [e0, e1, h0, h1]
  rw [if_neg (by simp), dword_take_eq _ _ _ (by omega),
    dword_take_eq _ _ _ (by omega), dword_take_eq _ _ _ (by omega)]

theorem read_dib_eof (l : List Nat) (h : l.length < 40) :
    read_dib l = .error .UnexpectedEof := by
  rw [read_dib, read_section_eof l 40 h, bind_error_eq]

theorem read_dib_unsupported (l : List Nat) (h : 40 ≤ l.length)
    (hs : dword l 0 ≠ 40) : read_dib l = .error .UnsupportedDib := by
  rw [read_dib, read_section_ok l 40 h, bind_ok_eq]
  rw [dword_take_eq _ _ _ (by omega)]
  rw [if_pos hs]

theorem read_dib_ok (l : List Nat) (h : 40 ≤ l.length)
    (hs : dword l 0 = 40) :
    read_dib l = .ok (⟨dword l 4, dword l 8, word l 12, word l 14,
      dword l 16, dword l 20, dword l 24, dword l 28,
      dword l 32, dword l 36⟩, l.drop 40) := by
  rw [read_dib, read_section_ok l 40 h, bind_ok_eq]
  rw [dword_take_eq _ _ _ (by omega)]
  rw [if_neg (by simp [hs])]
  rw [dword_take_eq _ _ _ (by omega), dword_take_eq _ _ _ (by omega),
    word_take_eq _ _ _ (by omega), word_take_eq _ _ _ (by omega),
    dword_take_eq _ _ _ (by omega), dword_take_eq _ _ _ (by omega),
    dword_take_eq _ _ _ (by omega), dword_take_eq _ _ _ (by omega),
    dword_take_eq _ _ _ (by omega), dword_take_eq _ _ _ (by omega)]

theorem read_color_table_eof (l : List Nat) (n : Nat) (h : l.length < 4 * n) :
    read_color_table l n = .error .UnexpectedEof := by
  rw [read_color_table, read_section_eof l (4 * n) h, bind_error_eq]

theorem read_color_table_ok (l : List Nat) (n : Nat) (h : 4 * n ≤ l.length) :
    read_color_table l n =
      .ok ((List.range n).map (fun i => Rgbx.from_u32 (dword l (4 * i))),
           l.drop (4 * n)) := by
  rw [read_color_table, read_section_ok l (4 * n) h, bind_ok_eq]
  have : ∀ i ∈ List.range n,
      Rgbx.from_u32 (dword (l.take (4 * n)) (4 * i)) =
      Rgbx.from_u32 (dword l (4 * i)) := by
    intro i hi
    rw [dword_take_eq _ _ _ (by rw [List.mem_range] at hi; omega)]
  simp only [List.map_congr_left this]

theorem read_pixels_4bpp_eof (l : List Nat) (cols rows : Nat)
    (h : l.length < rows * rbytes cols) :
    read_pixels_4bpp l cols rows = .error .UnexpectedEof := by
  rw [read_pixels_4bpp, read_section_eof l (rows * rbytes cols) h, bind_error_eq]

theorem pix_index_lt (cols rows r c : Nat) (hr : r < rows) (hc : c < cols) :
    r * rbytes cols + c / 2 < rows * rbytes cols := by
  have h1 : c / 2 < rbytes cols := by unfold rbytes; omega
  calc r * rbytes cols + c / 2 < r * rbytes cols + rbytes cols := by omega
    _ = (r + 1) * rbytes cols := by ring
    _ ≤ rows * rbytes cols := Nat.mul_le_mul_right _ (by omega)

theorem read_pixels_4bpp_ok (l : List Nat) (cols rows : Nat)
    (h : rows * rbytes cols ≤ l.length) :
    read_pixels_4bpp l cols rows =
      .ok ((List.range rows).flatMap (fun r => (List.range cols).map (fun c =>
             if c % 2 = 0 then l.getD (r * rbytes cols + c / 2) 0 / 16
             else l.getD (r * rbytes cols + c / 2) 0 % 16)),
           l.drop (rows * rbytes cols)) := by
  rw [read_pixels_4bpp, read_section_ok l (rows * rbytes cols) h, bind_ok_eq]
  have hcong : ∀ r ∈ List.range rows,
      (List.range cols).map (fun c =>
        if c % 2 = 0
        then (l.take (rows * rbytes cols)).getD (r * rbytes cols + c / 2) 0 / 16
        else (l.take (rows * rbytes cols)).getD (r * rbytes cols + c / 2) 0 % 16)
      = (List.range cols).map (fun c =>
        if c % 2 = 0 then l.getD (r * rbytes cols + c / 2) 0 / 16
        else l.getD (r * rbytes cols + c / 2) 0 % 16) := by
    intro r hrr
    rw [List.mem_range] at hrr
    refine List.map_congr_left ?_
    intro c hcc
    rw [List.mem_range] at hcc
    rw [getD_take_eq _ _ _ _ (pix_index_lt cols rows r c hrr hcc)]
  have : ((List.range rows).map (fun r => (List.range cols).map (fun c =>
        if c % 2 = 0
        then (l.take (rows * rbytes cols)).getD (r * rbytes cols + c / 2) 0 / 16
        else (l.take (rows * rbytes cols)).getD
          (r * rbytes cols + c / 2) 0 % 16))).flatten
      = ((List.range rows).map (fun r => (List.range cols).map (fun c =>
        if c % 2 = 0 then l.getD (r * rbytes cols + c / 2) 0 / 16
        else l.getD (r * rbytes cols + c / 2) 0 % 16))).flatten := by
    rw [List.map_congr_left hcong]
  simpa [List.flatMap] using this

end Bitmap

namespace Bitmap

theorem read_header_at (bs : List Nat) (h : 14 ≤ bs.length)
    (h0 : bs.getD 0 0 = 0x42) (h1 : bs.getD 1 0 = 0x4d) :
    read_header bs = .ok (parsedHeader bs, bs.drop 14) :=
  read_header_ok bs h h0 h1

theorem read_dib_at (bs : List Nat) (h : 54 ≤ bs.length)
    (hs : dword bs 14 = 40) :
    read_dib (bs.drop 14) = .ok (parsedDib bs, bs.drop 54) := by
  rw [read_dib_ok (bs.drop 14) (by rw [List.length_drop]; omega)
    (by rw [dword_drop_eq]; simpa using hs)]
  unfold parsedDib
  rw [dword_drop_eq bs 14 4, dword_drop_eq bs 14 8, word_drop_eq bs 14 12,
    word_drop_eq bs 14 14, dword_drop_eq bs 14 16, dword_drop_eq bs 14 20,
    dword_drop_eq bs 14 24, dword_drop_eq bs 14 28, dword_drop_eq bs 14 32,
    dword_drop_eq bs 14 36, List.drop_drop]

theorem read_color_table_at (bs : List Nat)
    (h : 54 + 4 * dword bs 46 ≤ bs.length) :
    read_color_table (bs.drop 54) (dword bs 46) =
      .ok (parsedPalette bs, bs.drop (pixelByteBase bs)) := by
  rw [read_color_table_ok _ _ (by rw [List.length_drop]; omega)]
  have h1 : (List.range (dword bs 46)).map
      (fun i => Rgbx.from_u32 (dword (bs.drop 54) (4 * i))) = parsedPalette bs := by
    unfold parsedPalette
    apply List.map_congr_left
    intro i hi
    rw [dword_drop_eq]
  have h2 : (bs.drop 54).drop (4 * dword bs 46) = bs.drop (pixelByteBase bs) := by
    rw [List.drop_drop]
    rfl
  rw [h1, h2]

theorem read_pixels_4bpp_at (bs : List Nat)
    (h : totalBytes bs ≤ bs.length) :
    read_pixels_4bpp (bs.drop (pixelByteBase bs)) (dword bs 18) (dword bs 22) =
      .ok (parsedPixels bs, bs.drop (totalBytes bs)) := by
  rw [read_pixels_4bpp_ok _ _ _
    (by rw [List.length_drop]; unfold totalBytes at h; omega)]
  have hcong : ∀ r ∈ List.range (dword bs 22),
      (List.range (dword bs 18)).map (fun c =>
        if c % 2 = 0
        then (bs.drop (pixelByteBase bs)).getD
          (r * rbytes (dword bs 18) + c / 2) 0 / 16
        else (bs.drop (pixelByteBase bs)).getD
          (r * rbytes (dword bs 18) + c / 2) 0 % 16)
      = (List.range (dword bs 18)).map (fun c =>
        if c % 2 = 0
        then bs.getD (pixelByteBase bs + (r * rbytes (dword bs 18) + c / 2)) 0 / 16
        else bs.getD (pixelByteBase bs + (r * rbytes (dword bs 18) + c / 2)) 0 % 16) := by
    intro r hr
    apply List.map_congr_left
    intro c hc
    simp only [getD_drop_eq]
  have hpix : (List.range (dword bs 22)).flatMap (fun r =>
      (List.range (dword bs 18)).map (fun c =>
        if c % 2 = 0
        then (bs.drop (pixelByteBase bs)).getD
          (r * rbytes (dword bs 18) + c / 2) 0 / 16
        else (bs.drop (pixelByteBase bs)).getD
          (r * rbytes (dword bs 18) + c / 2) 0 % 16)) = parsedPixels bs := by
    unfold parsedPixels
    have h2 := List.map_congr_left hcong
    simp only [List.flatMap] at *
    exact congrArg List.flatten h2
  have hrest : (bs.drop (pixelByteBase bs)).drop
      (dword bs 22 * rbytes (dword bs 18)) = bs.drop (totalBytes bs) := by
    rw [List.drop_drop]
    rfl
  rw [hpix, hrest]

/-! ### Full-pipeline characterization -/

theorem read_eof_header (bs : List Nat) (h : bs.length < 14) :
    read bs = .error .UnexpectedEof := by
  rw [read, read_header_eof bs h, bind_error_eq]

theorem read_badmagic_char (bs : List Nat) (h : 14 ≤ bs.length)
    (hm : bs.getD 0 0 ≠ 0x42 ∨ bs.getD 1 0 ≠ 0x4d) :
    read bs = .error .BadMagic := by
  rw [read, read_header_badmagic bs h hm, bind_error_eq]

theorem read_eof_dib (bs : List Nat) (h0 : bs.getD 0 0 = 0x42)
    (h1 : bs.getD 1 0 = 0x4d) (h14 : 14 ≤ bs.length) (h54 : bs.length < 54) :
    read bs = .error .UnexpectedEof := by
  simp only [read, read_header_at bs h14 h0 h1, bind_ok_eq]
  rw [read_dib_eof _ (by rw [List.length_drop]; omega), bind_error_eq]

theorem read_dib_gate (bs : List Nat) (h0 : bs.getD 0 0 = 0x42)
    (h1 : bs.getD 1 0 = 0x4d) (h54 : 54 ≤ bs.length)
    (hs : dword bs 14 ≠ 40) : read bs = .error .UnsupportedDib := by
  simp only [read, read_header_at bs (by omega) h0 h1, bind_ok_eq]
  rw [read_dib_unsupported _ (by rw [List.length_drop]; omega)
    (by rw [dword_drop_eq]; simpa using hs), bind_error_eq]

theorem read_eof_palette (bs : List Nat) (h0 : bs.getD 0 0 = 0x42)
    (h1 : bs.getD 1 0 = 0x4d) (hs : dword bs 14 = 40) (h54 : 54 ≤ bs.length)
    (hlt : bs.length < 54 + 4 * dword bs 46) :
    read bs = .error .UnexpectedEof := by
  simp only [read, read_header_at bs (by omega) h0 h1, bind_ok_eq,
    read_dib_at bs h54 hs, parsedDib]
  rw [read_color_table_eof _ _ (by rw [List.length_drop]; omega), bind_error_eq]

theorem read_bpp_gate (bs : List Nat) (h0 : bs.getD 0 0 = 0x42)
    (h1 : bs.getD 1 0 = 0x4d) (hs : dword bs 14 = 40)
    (hpal : 54 + 4 * dword bs 46 ≤ bs.length) (hbpp : word bs 28 ≠ 4) :
    read bs = .error .UnsupportedBpp := by
  simp only [read, read_header_at bs (by omega) h0 h1, bind_ok_eq,
    read_dib_at bs (by omega) hs, parsedDib, read_color_table_at bs hpal]
  rw [read_pixels, if_neg hbpp, bind_error_eq]

theorem read_eof_pixels (bs : List Nat) (h0 : bs.getD 0 0 = 0x42)
    (h1 : bs.getD 1 0 = 0x4d) (hs : dword bs 14 = 40) (hbpp : word bs 28 = 4)
    (hpal : 54 + 4 * dword bs 46 ≤ bs.length)
    (hlt : bs.length < totalBytes bs) :
    read bs = .error .UnexpectedEof := by
  simp only [read, read_header_at bs (by omega) h0 h1, bind_ok_eq,
    read_dib_at bs (by omega) hs, parsedDib, read_color_table_at bs hpal]
  rw [read_pixels, if_pos hbpp, read_pixels_4bpp_eof _ _ _
    (by rw [List.length_drop]; unfold totalBytes pixelByteBase at hlt
        unfold pixelByteBase; omega), bind_error_eq]

theorem read_ok_char (bs : List Nat) (h0 : bs.getD 0 0 = 0x42)
    (h1 : bs.getD 1 0 = 0x4d) (hs : dword bs 14 = 40) (hbpp : word bs 28 = 4)
    (hlen : totalBytes bs ≤ bs.length) :
    read bs = .ok ⟨parsedHeader bs, parsedDib bs, parsedPalette bs,
      parsedPixels bs⟩ := by
  have h54 : 54 ≤ bs.length := by
    unfold totalBytes pixelByteBase at hlen; omega
  have hpal : 54 + 4 * dword bs 46 ≤ bs.length := by
    unfold totalBytes pixelByteBase at hlen; omega
  simp only [read, read_header_at bs (by omega) h0 h1, bind_ok_eq,
    read_dib_at bs h54 hs, parsedDib, read_color_table_at bs hpal]
  rw [read_pixels, if_pos hbpp, read_pixels_4bpp_at bs hlen, bind_ok_eq]

/-- Inversion: a successful decode pins down all the gate conditions and the
decoded bitmap. -/
theorem read_ok_inv (bs : List Nat) (bm : Bitmap) (h : read bs = .ok bm) :
    bs.getD 0 0 = 0x42 ∧ bs.getD 1 0 = 0x4d ∧ dword bs 14 = 40 ∧
    word bs 28 = 4 ∧ totalBytes bs ≤ bs.length ∧
    bm = ⟨parsedHeader bs, parsedDib bs, parsedPalette bs, parsedPixels bs⟩ := by
  by_cases c14 : bs.length < 14
  · rw [read_eof_header bs c14] at h; simp at h
  push_neg at c14
  by_cases cm : bs.getD 0 0 = 0x42 ∧ bs.getD 1 0 = 0x4d
  case neg =>
    rw [read_badmagic_char bs c14 (by tauto)] at h; simp at h
  obtain ⟨h0, h1⟩ := cm
  by_cases c54 : bs.length < 54
  · rw [read_eof_dib bs h0 h1 c14 c54] at h; simp at h
  push_neg at c54
  by_cases cs : dword bs 14 = 40
  case neg => rw [read_dib_gate bs h0 h1 c54 cs] at h; simp at h
  by_cases cpal : bs.length < 54 + 4 * dword bs 46
  · rw [read_eof_palette bs h0 h1 cs c54 cpal] at h; simp at h
  push_neg at cpal
  by_cases cbpp : word bs 28 = 4
  case neg => rw [read_bpp_gate bs h0 h1 cs cpal cbpp] at h; simp at h
  by_cases ctot : bs.length < totalBytes bs
  · rw [read_eof_pixels bs h0 h1 cs cbpp cpal ctot] at h; simp at h
  push_neg at ctot
  rw [read_ok_char bs h0 h1 cs cbpp ctot] at h
  refine ⟨h0, h1, cs, cbpp, ctot, ?_⟩
  injection h with h2
  exact h2.symm

end Bitmap

/-! ### Grid indexing lemmas for the nested pixel loops -/

theorem flatMap_congr_left {α β : Type} (l : List α) (f g : α → List β)
    (h : ∀ a ∈ l, f a = g a) : l.flatMap f = l.flatMap g := by
  simp only [List.flatMap]
  exact congrArg List.flatten (List.map_congr_left h)

theorem length_grid {α : Type} (f : Nat → Nat → α) (rows cols : Nat) :
    ((List.range rows).flatMap (fun r => (List.range cols).map (f r))).length
      = rows * cols := by
  induction rows with
  | zero => simp
  | succ n ih =>
    rw [List.range_succ, List.flatMap_append, List.length_append, ih]
    simp [Nat.succ_mul]

theorem getD_grid {α : Type} (f : Nat → Nat → α) (rows cols r c : Nat) (d : α)
    (hr : r < rows) (hc : c < cols) :
    ((List.range rows).flatMap (fun r => (List.range cols).map (f r))).getD
      (r * cols + c) d = f r c := by
  induction rows with
  | zero => omega
  | succ n ih =>
    rw [List.range_succ, List.flatMap_append]
    by_cases hrn : r < n
    · rw [List.getD_append _ _ _ _ ?_]
      · exact ih hrn
      · rw [length_grid]
        calc r * cols + c < r * cols + cols := by omega
          _ = (r + 1) * cols := by ring
          _ ≤ n * cols := Nat.mul_le_mul_right _ (by omega)
    · have hrn2 : r = n := by omega
      subst hrn2
      rw [List.getD_append_right _ _ _ _ (by rw [length_grid]; omega)]
      rw [length_grid]
      have hidx : r * cols + c - r * cols = c := by omega
      rw [hidx]
      simp only [List.flatMap_cons, List.flatMap_nil, List.append_nil]
      rw [List.getD_eq_getElem?_getD, List.getElem?_map, List.getElem?_range hc]
      rfl

/-! ### Truncation congruence for the parsed values -/

theorem parsedHeader_take (bs : List Nat) (k : Nat) (h : 14 ≤ k) :
    parsedHeader (bs.take k) = parsedHeader bs := by
  unfold parsedHeader
  rw [dword_take_eq _ _ _ (by omega), dword_take_eq _ _ _ (by omega),
    dword_take_eq _ _ _ (by omega)]

theorem parsedDib_take (bs : List Nat) (k : Nat) (h : 54 ≤ k) :
    parsedDib (bs.take k) = parsedDib bs := by
  unfold parsedDib
  rw [dword_take_eq _ _ _ (by omega), dword_take_eq _ _ _ (by omega),
    word_take_eq _ _ _ (by omega), word_take_eq _ _ _ (by omega),
    dword_take_eq _ _ _ (by omega), dword_take_eq _ _ _ (by omega),
    dword_take_eq _ _ _ (by omega), dword_take_eq _ _ _ (by omega),
    dword_take_eq _ _ _ (by omega), dword_take_eq _ _ _ (by omega)]

theorem pixelByteBase_take (bs : List Nat) (k : Nat) (h : 50 ≤ k) :
    pixelByteBase (bs.take k) = pixelByteBase bs := by
  unfold pixelByteBase
  rw [dword_take_eq _ _ _ (by omega)]

theorem totalBytes_take (bs : List Nat) (k : Nat) (h : 54 ≤ k) :
    totalBytes (bs.take k) = totalBytes bs := by
  unfold totalBytes
  rw [pixelByteBase_take _ _ (by omega), dword_take_eq _ _ _ (by omega),
    dword_take_eq _ _ _ (by omega)]

theorem parsedPalette_take (bs : List Nat) (k : Nat)
    (h : 54 + 4 * dword bs 46 ≤ k) :
    parsedPalette (bs.take k) = parsedPalette bs := by
  unfold parsedPalette
  rw [dword_take_eq _ _ _ (by omega)]
  apply List.map_congr_left
  intro i hi
  rw [List.mem_range] at hi
  rw [dword_take_eq _ _ _ (by omega)]

theorem parsedPixels_take (bs : List Nat) (k : Nat)
    (h : totalBytes bs ≤ k) :
    parsedPixels (bs.take k) = parsedPixels bs := by
  have h54 : 54 ≤ k := by unfold totalBytes pixelByteBase at h; omega
  unfold parsedPixels
  rw [dword_take_eq _ _ _ (by omega), dword_take_eq _ _ _ (by omega),
    pixelByteBase_take _ _ (by omega)]
  apply flatMap_congr_left
  intro r hr
  rw [List.mem_range] at hr
  apply List.map_congr_left
  intro c hc
  rw [List.mem_range] at hc
  have hb := Bitmap.pix_index_lt (dword bs 18) (dword bs 22) r c hr hc
  have hk : pixelByteBase bs + (r * Bitmap.rbytes (dword bs 18) + c / 2) < k := by
    unfold totalBytes at h
    omega
  rw [getD_take_eq _ _ _ _ hk]

/-! ### Byte-level facts -/

theorem getD_lt_256 (l : List Nat) (i : Nat) (h : ∀ b ∈ l, b < 256) :
    l.getD i 0 < 256 := by
  by_cases hi : i < l.length
  · rw [List.getD_eq_getElem?_getD, List.getElem?_eq_getElem hi]
    exact h _ (List.getElem_mem hi)
  · rw [List.getD_eq_getElem?_getD, List.getElem?_eq_none (by omega)]
    norm_num

theorem u32_to_be_bytes (a b c d : Nat) (ha : a < 256) (hb : b < 256)
    (hc : c < 256) (hd : d < 256) :
    u32_to_be (a + b * 256 + c * 65536 + d * 16777216)
      = d + c * 256 + b * 65536 + a * 16777216 := by
  unfold u32_to_be
  have e1 : (a + b * 256 + c * 65536 + d * 16777216) % 256 = a := by omega
  have e2 : (a + b * 256 + c * 65536 + d * 16777216) / 256 % 256 = b := by omega
  have e3 : (a + b * 256 + c * 65536 + d * 16777216) / 65536 % 256 = c := by
    omega
  have e4 : (a + b * 256 + c * 65536 + d * 16777216) / 16777216 % 256 = d := by
    omega
  rw [e1, e2, e3, e4]
  ring

theorem from_u32_bytes (a b c d : Nat) (ha : a < 256) (hb : b < 256)
    (hc : c < 256) (hd : d < 256) :
    Rgbx.from_u32 (a + b * 256 + c * 65536 + d * 16777216) = ⟨a, b, c, d⟩ := by
  unfold Rgbx.from_u32
  rw [u32_to_be_bytes a b c d ha hb hc hd]
  simp only [Rgbx.mk.injEq]
  refine ⟨by omega, by omega, by omega, by omega⟩

theorem from_u32_dword (l : List Nat) (j : Nat)
    (h0 : l.getD j 0 < 256) (h1 : l.getD (j + 1) 0 < 256)
    (h2 : l.getD (j + 2) 0 < 256) (h3 : l.getD (j + 3) 0 < 256) :
    Rgbx.from_u32 (dword l j) =
      ⟨l.getD j 0, l.getD (j + 1) 0, l.getD (j + 2) 0, l.getD (j + 3) 0⟩ := by
  have hd : dword l j = l.getD j 0 + l.getD (j + 1) 0 * 256 +
      l.getD (j + 2) 0 * 65536 + l.getD (j + 3) 0 * 16777216 := rfl
  rw [hd, from_u32_bytes _ _ _ _ h0 h1 h2 h3]

/-! ### The claims -/

/-- Claim C1: for every successful 4-bpp decode, the pixel value at row `r`
and column `c` equals the high nibble of the pixel-data byte at index
`r * stride + c / 2` when `c` is even and the low nibble of that byte when
`c` is odd; in particular, for width 3 a row whose bytes are
`[0x13, 0x20, 0x00, 0x00]` decodes to the pixel indices `[1, 3, 2]`. -/
theorem claim_C1 :
    (∀ (input : List Nat) (cols rows : Nat) (pixels rest : List Nat)
        (r c : Nat),
      Bitmap.read_pixels_4bpp input cols rows = .ok (pixels, rest) →
      r < rows → c < cols →
      pixels.getD (r * cols + c) 0 =
        (if c % 2 = 0
         then input.getD (r * Bitmap.rbytes cols + c / 2) 0 / 16
         else input.getD (r * Bitmap.rbytes cols + c / 2) 0 % 16)) ∧
    Bitmap.read_pixels_4bpp [0x13, 0x20, 0x00, 0x00] 3 1 =
      .ok ([1, 3, 2], []) := by
  constructor
  · intro input cols rows pixels rest r c h hr hc
    have hle : rows * Bitmap.rbytes cols ≤ input.length := by
      by_contra hlt
      push_neg at hlt
      rw [Bitmap.read_pixels_4bpp_eof _ _ _ hlt] at h
      simp at h
    rw [Bitmap.read_pixels_4bpp_ok _ _ _ hle] at h
    injection h with h2
    simp only [Prod.mk.injEq] at h2
    obtain ⟨hp, _⟩ := h2
    subst hp
    exact getD_grid (fun r c =>
      if c % 2 = 0 then input.getD (r * Bitmap.rbytes cols + c / 2) 0 / 16
      else input.getD (r * Bitmap.rbytes cols + c / 2) 0 % 16)
      rows cols r c 0 hr hc
  · rfl

/-- Witness for C1 at the example stated in the claim: row 0, column 2 of the
width-3 decode of `[0x13, 0x20, 0x00, 0x00]` is the high nibble of byte 1. -/
theorem claim_C1_witness :
    ([1, 3, 2] : List Nat).getD (0 * 3 + 2) 0 =
      (if 2 % 2 = 0
       then ([0x13, 0x20, 0x00, 0x00] : List Nat).getD
         (0 * Bitmap.rbytes 3 + 2 / 2) 0 / 16
       else ([0x13, 0x20, 0x00, 0x00] : List Nat).getD
         (0 * Bitmap.rbytes 3 + 2 / 2) 0 % 16) :=
  claim_C1.1 [0x13, 0x20, 0x00, 0x00] 3 1 [1, 3, 2] [] 0 2 claim_C1.2
    (by decide) (by decide)

/-- Claim C2: the 4-bpp reader computes the padded row stride as
`((4 * width + 31) / 32) * 4` (so widths 3, 8, 9 give strides 4, 4, 8),
demands exactly `stride * height` bytes, succeeding by consuming them and
failing with `UnexpectedEof` when fewer are available. -/
theorem claim_C2 :
    Bitmap.rbytes 3 = 4 ∧ Bitmap.rbytes 8 = 4 ∧ Bitmap.rbytes 9 = 8 ∧
    ∀ (input : List Nat) (cols rows : Nat),
      (rows * Bitmap.rbytes cols ≤ input.length →
        ∃ pixels, Bitmap.read_pixels_4bpp input cols rows =
          .ok (pixels, input.drop (rows * Bitmap.rbytes cols))) ∧
      (input.length < rows * Bitmap.rbytes cols →
        Bitmap.read_pixels_4bpp input cols rows = .error .UnexpectedEof) := by
  refine ⟨rfl, rfl, rfl, ?_⟩
  intro input cols rows
  constructor
  · intro h
    exact ⟨_, Bitmap.read_pixels_4bpp_ok input cols rows h⟩
  · intro h
    exact Bitmap.read_pixels_4bpp_eof input cols rows h

/-- Witness for C2: a 3-byte stream is short of the 4 bytes one width-3 row
demands, so the reader fails with `UnexpectedEof`. -/
theorem claim_C2_witness :
    Bitmap.read_pixels_4bpp [0, 0, 0] 3 1 = .error .UnexpectedEof :=
  (claim_C2.2.2.2 [0, 0, 0] 3 1).2 (by decide)

/-- Counterexample for C3 as stated: a stream holding only the two bad magic
bytes `0xcc, 0xdd` and nothing else fails with `UnexpectedEof`, not with
`BadMagic`, because the 14-byte header section is read (and found short)
before the magic bytes are inspected. -/
theorem claim_C3_counterexample :
    Bitmap.read [0xcc, 0xdd] = .error .UnexpectedEof ∧
    Bitmap.read [0xcc, 0xdd] ≠ .error .BadMagic := by
  have h : Bitmap.read [0xcc, 0xdd] = .error .UnexpectedEof := rfl
  refine ⟨h, ?_⟩
  rw [h]
  intro hcontra
  injection hcontra with hc
  cases hc

/-- Claim C3 (amended): for every input of at least 14 bytes whose first two
bytes are not `0x42, 0x4D`, decoding fails with `BadMagic` regardless of the
subsequent bytes; an input shorter than 14 bytes fails with `UnexpectedEof`
before the magic is inspected, even when its first two bytes are wrong. -/
theorem claim_C3 :
    ∀ bs : List Nat,
      (14 ≤ bs.length → bs.getD 0 0 ≠ 0x42 ∨ bs.getD 1 0 ≠ 0x4d →
        Bitmap.read bs = .error .BadMagic) ∧
      (bs.length < 14 → Bitmap.read bs = .error .UnexpectedEof) := by
  intro bs
  exact ⟨fun h hm => Bitmap.read_badmagic_char bs h hm,
         fun h => Bitmap.read_eof_header bs h⟩

/-- Witness for C3 on the original bad-magic fixture padded to 14 bytes. -/
theorem claim_C3_witness :
    Bitmap.read [0xcc, 0xdd, 0, 0, 0, 0, 0, 0, 0, 0, 0, 0, 0, 0] =
      .error .BadMagic :=
  (claim_C3 [0xcc, 0xdd, 0, 0, 0, 0, 0, 0, 0, 0, 0, 0, 0, 0]).1
    (by decide) (Or.inl (by decide))

/-- Claim C4: with a valid header and a DIB declaring a bit depth other
than 4, decoding fails with `UnsupportedBpp`, and only after the header, the
DIB and the full `4 * palette_colors`-byte palette have been consumed: while
the stream is still too short to hold the palette the failure is
`UnexpectedEof` instead. -/
theorem claim_C4 :
    ∀ bs : List Nat, bs.getD 0 0 = 0x42 → bs.getD 1 0 = 0x4d →
      dword bs 14 = 40 → word bs 28 ≠ 4 →
      (54 + 4 * dword bs 46 ≤ bs.length →
        Bitmap.read bs = .error .UnsupportedBpp) ∧
      (54 ≤ bs.length → bs.length < 54 + 4 * dword bs 46 →
        Bitmap.read bs = .error .UnexpectedEof) := by
  intro bs h0 h1 hs hbpp
  exact ⟨fun hpal => Bitmap.read_bpp_gate bs h0 h1 hs hpal hbpp,
         fun h54 hlt => Bitmap.read_eof_palette bs h0 h1 hs h54 hlt⟩

/-- Witness for C4 on the original unsupported-bit-depth fixture (bpp = 1). -/
theorem claim_C4_witness :
    Bitmap.read bppFixBytes = .error .UnsupportedBpp :=
  (claim_C4 bppFixBytes (by decide) (by decide) (by decide) (by decide)).1
    (by decide)

/-- Claim C5: a DIB block whose first four little-endian bytes declare a size
other than 40 makes decoding fail with `UnsupportedDib`, whatever the other
DIB bytes hold (the DIB reader constrains nothing but those four bytes). -/
theorem claim_C5 :
    ∀ (bs input : List Nat),
      (bs.getD 0 0 = 0x42 → bs.getD 1 0 = 0x4d → 54 ≤ bs.length →
        dword bs 14 ≠ 40 → Bitmap.read bs = .error .UnsupportedDib) ∧
      (40 ≤ input.length → dword input 0 ≠ 40 →
        Bitmap.read_dib input = .error .UnsupportedDib) := by
  intro bs input
  exact ⟨fun h0 h1 h54 hs => Bitmap.read_dib_gate bs h0 h1 h54 hs,
         fun hlen hs => Bitmap.read_dib_unsupported input hlen hs⟩

/-- Witness for C5 on the original unsupported-DIB fixture (declared size
`0xddccbbaa`). -/
theorem claim_C5_witness :
    Bitmap.read dibFixBytes = .error .UnsupportedDib :=
  (claim_C5 dibFixBytes []).1 (by decide) (by decide) (by decide) (by decide)

/-- Claim C6: the color table reader consumes exactly `4 * n` bytes, failing
with `UnexpectedEof` when fewer are available, and returns exactly `n`
colors in stream order; `n = 0` succeeds with an empty palette and consumes
nothing. -/
theorem claim_C6 :
    ∀ (input : List Nat) (n : Nat),
      (4 * n ≤ input.length →
        ∃ table : List Rgbx,
          Bitmap.read_color_table input n = .ok (table, input.drop (4 * n)) ∧
          table.length = n ∧
          ∀ i, i < n → table.getD i ⟨0, 0, 0, 0⟩ =
            Rgbx.from_u32 (dword input (4 * i))) ∧
      (input.length < 4 * n →
        Bitmap.read_color_table input n = .error .UnexpectedEof) ∧
      Bitmap.read_color_table input 0 = .ok ([], input) := by
  intro input n
  refine ⟨?_, ?_, ?_⟩
  · intro h
    refine ⟨_, Bitmap.read_color_table_ok input n h, ?_, ?_⟩
    · simp
    · intro i hi
      rw [List.getD_eq_getElem?_getD, List.getElem?_map,
        List.getElem?_range hi]
      rfl
  · exact Bitmap.read_color_table_eof input n
  · have h0 := Bitmap.read_color_table_ok input 0 (by simp)
    simpa using h0

/-- Witness for C6 on the original 4-color palette bytes. -/
theorem claim_C6_witness :
    Bitmap.read_color_table [0, 0, 0, 0, 0xff, 0, 0, 0] 4 =
      .error .UnexpectedEof :=
  (claim_C6 [0, 0, 0, 0, 0xff, 0, 0, 0] 4).2.1 (by decide)

/-- Claim C9: each 4-byte palette entry with stream bytes `b0, b1, b2, b3`
decodes to an `Rgbx` whose four components are exactly `(b0, b1, b2, b3)` in
stream order: the little-endian `dword!` assembly composed with the `to_be`
byte swap of `Rgbx::from_u32` is the identity on byte order, so the tuple
holds blue, green, red, reserved under the BMP wire layout. -/
theorem claim_C9 :
    (∀ b0 b1 b2 b3 : Nat, b0 < 256 → b1 < 256 → b2 < 256 → b3 < 256 →
      Rgbx.from_u32 (dword [b0, b1, b2, b3] 0) = ⟨b0, b1, b2, b3⟩) ∧
    ∀ (input : List Nat) (n i : Nat) (table : List Rgbx) (rest : List Nat),
      Bitmap.read_color_table input n = .ok (table, rest) → i < n →
      (∀ b ∈ input, b < 256) →
      table.getD i ⟨0, 0, 0, 0⟩ =
        ⟨input.getD (4 * i) 0, input.getD (4 * i + 1) 0,
         input.getD (4 * i + 2) 0, input.getD (4 * i + 3) 0⟩ := by
  constructor
  · intro b0 b1 b2 b3 h0 h1 h2 h3
    have h := from_u32_dword [b0, b1, b2, b3] 0 (by simpa using h0)
      (by simpa using h1) (by simpa using h2) (by simpa using h3)
    simpa using h
  · intro input n i table rest h hi hwf
    have hle : 4 * n ≤ input.length := by
      by_contra hlt
      push_neg at hlt
      rw [Bitmap.read_color_table_eof _ _ hlt] at h
      simp at h
    rw [Bitmap.read_color_table_ok _ _ hle] at h
    injection h with h2
    simp only [Prod.mk.injEq] at h2
    obtain ⟨ht, _⟩ := h2
    subst ht
    rw [List.getD_eq_getElem?_getD, List.getElem?_map,
      List.getElem?_range hi]
    exact from_u32_dword input (4 * i) (getD_lt_256 _ _ hwf)
      (getD_lt_256 _ _ hwf) (getD_lt_256 _ _ hwf) (getD_lt_256 _ _ hwf)

/-- Witness for C9 at the bytes `0xAA, 0xBB, 0xCC, 0xDD`. -/
theorem claim_C9_witness :
    Rgbx.from_u32 (dword [0xaa, 0xbb, 0xcc, 0xdd] 0) =
      ⟨0xaa, 0xbb, 0xcc, 0xdd⟩ :=
  claim_C9.1 0xaa 0xbb 0xcc 0xdd (by decide) (by decide) (by decide)
    (by decide)

/-- Claim C10: every pixel value of a successful decode is a 4-bit nibble,
strictly below 16. -/
theorem claim_C10 :
    ∀ (bs : List Nat) (bm : Bitmap), (∀ b ∈ bs, b < 256) →
      Bitmap.read bs = .ok bm → ∀ p ∈ bm.pixels, p < 16 := by
  intro bs bm hwf h p hp
  obtain ⟨h0, h1, hs, hbpp, hlen, hbm⟩ := Bitmap.read_ok_inv bs bm h
  subst hbm
  simp only [parsedPixels] at hp
  rw [List.mem_flatMap] at hp
  obtain ⟨r, hr, hp⟩ := hp
  rw [List.mem_map] at hp
  obtain ⟨c, hc, hpc⟩ := hp
  subst hpc
  by_cases hpar : c % 2 = 0
  · rw [if_pos hpar]
    have hb := getD_lt_256 bs
      (pixelByteBase bs + (r * Bitmap.rbytes (dword bs 18) + c / 2)) hwf
    omega
  · rw [if_neg hpar]
    omega

/-- Witness for C10 on the original end-to-end fixture. -/
theorem claim_C10_witness : fixBitmap.pixels.getD 0 0 < 16 :=
  claim_C10 fixBytes fixBitmap (by decide) (by rfl)
    (fixBitmap.pixels.getD 0 0) (by decide)

/-- Claim C7: a successful decode yields a pixel grid of length
`width * height` in row-major order with stored row 0 first: the pixel at
row `r`, column `c` comes from the nibble of the pixel-data byte at stream
offset `54 + 4 * palette_colors + r * stride + c / 2`, so no vertical flip
compensates for the bottom-up convention of BMP. -/
theorem claim_C7 :
    ∀ (bs : List Nat) (bm : Bitmap), Bitmap.read bs = .ok bm →
      bm.pixels.length = bm.dib.width * bm.dib.height ∧
      ∀ r c, r < bm.dib.height → c < bm.dib.width →
        bm.pixels.getD (r * bm.dib.width + c) 0 =
          (if c % 2 = 0
           then bs.getD (54 + 4 * bm.dib.colors +
             (r * Bitmap.rbytes bm.dib.width + c / 2)) 0 / 16
           else bs.getD (54 + 4 * bm.dib.colors +
             (r * Bitmap.rbytes bm.dib.width + c / 2)) 0 % 16) := by
  intro bs bm h
  obtain ⟨h0, h1, hs, hbpp, hlen, hbm⟩ := Bitmap.read_ok_inv bs bm h
  subst hbm
  constructor
  · simp only [parsedDib, parsedPixels]
    rw [length_grid]
    exact Nat.mul_comm _ _
  · intro r c hr hc
    simp only [parsedDib] at hr hc ⊢
    simp only [parsedPixels, pixelByteBase]
    exact getD_grid _ (dword bs 22) (dword bs 18) r c 0 hr hc

/-- Witness for C7 on the original end-to-end fixture: the pixel at row 1,
column 0 of the 3×3 decode is the high nibble of the byte at offset
`54 + 16 + 1 * 4 + 0`. -/
theorem claim_C7_witness :
    fixBitmap.pixels.getD (1 * fixBitmap.dib.width + 0) 0 =
      (if (0 : Nat) % 2 = 0
       then fixBytes.getD (54 + 4 * fixBitmap.dib.colors +
         (1 * Bitmap.rbytes fixBitmap.dib.width + 0 / 2)) 0 / 16
       else fixBytes.getD (54 + 4 * fixBitmap.dib.colors +
         (1 * Bitmap.rbytes fixBitmap.dib.width + 0 / 2)) 0 % 16) :=
  (claim_C7 fixBytes fixBitmap (by rfl)).2 1 0 (by decide) (by decide)

/-- Claim C8: the section reader returns exactly `n` bytes when at least `n`
are available and fails with `UnexpectedEof` otherwise; consequently,
truncating a well-formed input strictly before the total the stages demand
yields `UnexpectedEof`, while truncating exactly at a stage boundary leaves
every completed stage succeeding (header at 14, DIB at 54, palette at
`54 + 4 * palette_colors`, and the whole decode at its total byte count). -/
theorem claim_C8 :
    (∀ (input : List Nat) (n : Nat),
      (n ≤ input.length →
        Bitmap.read_section input n = .ok (input.take n, input.drop n)) ∧
      (input.length < n →
        Bitmap.read_section input n = .error .UnexpectedEof)) ∧
    ∀ (bs : List Nat) (bm : Bitmap), Bitmap.read bs = .ok bm →
      (∀ k, k < totalBytes bs →
        Bitmap.read (bs.take k) = .error .UnexpectedEof) ∧
      Bitmap.read (bs.take (totalBytes bs)) = .ok bm ∧
      Bitmap.read_header (bs.take 14) = .ok (parsedHeader bs, []) ∧
      Bitmap.read_dib ((bs.take 54).drop 14) = .ok (parsedDib bs, []) ∧
      Bitmap.read_color_table ((bs.take (54 + 4 * dword bs 46)).drop 54)
        (dword bs 46) = .ok (parsedPalette bs, []) := by
  constructor
  · intro input n
    exact ⟨Bitmap.read_section_ok input n, Bitmap.read_section_eof input n⟩
  · intro bs bm h
    obtain ⟨h0, h1, hs, hbpp, hlen, hbm⟩ := Bitmap.read_ok_inv bs bm h
    have htot54 : 54 ≤ totalBytes bs := by
      unfold totalBytes pixelByteBase; omega
    have hpalle : 54 + 4 * dword bs 46 ≤ totalBytes bs := by
      unfold totalBytes pixelByteBase; omega
    refine ⟨?_, ?_, ?_, ?_, ?_⟩
    · intro k hk
      have hkle : k ≤ bs.length := by omega
      have hlt : (bs.take k).length = k := by rw [List.length_take]; omega
      by_cases c14 : k < 14
      · exact Bitmap.read_eof_header _ (by rw [hlt]; omega)
      push_neg at c14
      have m0 : (bs.take k).getD 0 0 = 0x42 := by
        rw [getD_take_eq _ _ _ _ (by omega)]; exact h0
      have m1 : (bs.take k).getD 1 0 = 0x4d := by
        rw [getD_take_eq _ _ _ _ (by omega)]; exact h1
      by_cases c54 : k < 54
      · exact Bitmap.read_eof_dib _ m0 m1 (by rw [hlt]; omega)
          (by rw [hlt]; omega)
      push_neg at c54
      have ms : dword (bs.take k) 14 = 40 := by
        rw [dword_take_eq _ _ _ (by omega)]; exact hs
      have mc : dword (bs.take k) 46 = dword bs 46 :=
        dword_take_eq _ _ _ (by omega)
      by_cases cpal : k < 54 + 4 * dword bs 46
      · refine Bitmap.read_eof_palette _ m0 m1 ms (by rw [hlt]; omega) ?_
        rw [hlt, mc]; omega
      push_neg at cpal
      have mb : word (bs.take k) 28 = 4 := by
        rw [word_take_eq _ _ _ (by omega)]; exact hbpp
      refine Bitmap.read_eof_pixels _ m0 m1 ms mb ?_ ?_
      · rw [mc, hlt]; exact cpal
      · rw [hlt, totalBytes_take _ _ c54]; exact hk
    · rw [Bitmap.read_ok_char (bs.take (totalBytes bs))
        (by rw [getD_take_eq _ _ _ _ (by omega)]; exact h0)
        (by rw [getD_take_eq _ _ _ _ (by omega)]; exact h1)
        (by rw [dword_take_eq _ _ _ (by omega)]; exact hs)
        (by rw [word_take_eq _ _ _ (by omega)]; exact hbpp)
        (by rw [totalBytes_take _ _ htot54, List.length_take]; omega)]
      rw [hbm, parsedHeader_take _ _ (by omega),
        parsedDib_take _ _ (by omega),
        parsedPalette_take _ _ hpalle,
        parsedPixels_take _ _ (le_refl _)]
    · rw [Bitmap.read_header_at (bs.take 14)
        (by rw [List.length_take]; omega)
        (by rw [getD_take_eq _ _ _ _ (by omega)]; exact h0)
        (by rw [getD_take_eq _ _ _ _ (by omega)]; exact h1)]
      rw [parsedHeader_take _ _ (by omega)]
      have e : (bs.take 14).drop 14 = [] := by simp
      rw [e]
    · rw [Bitmap.read_dib_at (bs.take 54)
        (by rw [List.length_take]; omega)
        (by rw [dword_take_eq _ _ _ (by omega)]; exact hs)]
      rw [parsedDib_take _ _ (le_refl 54)]
      have e : (bs.take 54).drop 54 = [] := by simp
      rw [e]
    · have hc46 : dword (bs.take (54 + 4 * dword bs 46)) 46 = dword bs 46 :=
        dword_take_eq _ _ _ (by omega)
      have hh : 54 + 4 * dword (bs.take (54 + 4 * dword bs 46)) 46 ≤
          (bs.take (54 + 4 * dword bs 46)).length := by
        rw [hc46, List.length_take]; omega
      have happ := Bitmap.read_color_table_at
        (bs.take (54 + 4 * dword bs 46)) hh
      rw [hc46] at happ
      rw [parsedPalette_take _ _ (le_refl _)] at happ
      rw [pixelByteBase_take _ _ (by omega)] at happ
      have hnil : (bs.take (54 + 4 * dword bs 46)).drop (pixelByteBase bs)
          = [] := by
        unfold pixelByteBase
        simp
      rw [hnil] at happ
      exact happ

/-- Witness for C8: truncating the original end-to-end fixture to 20 bytes
(inside the DIB) fails with `UnexpectedEof`. -/
theorem claim_C8_witness :
    Bitmap.read (fixBytes.take 20) = .error .UnexpectedEof :=
  (claim_C8.2 fixBytes fixBitmap (by rfl)).1 20 (by decide)
